import Mathlib

/-!
Verification of the MetaGoogler repository's specification.

The embedding covers:
* the mobile app's Redux library slice (`src/mobile_app/src/redux/slices/librarySlice.ts`),
* the AudD recognition service (`src/services/auddService.ts`),
* the cover-art resolution engine (candidate retrieval, fingerprinting,
  similarity clustering, consensus selection, normalization).  The engine's
  Python implementation (`cover_art_fetcher.py`, `song_metadata_fixer_v2.py`)
  is not present in the repository snapshot — only its documentation — so those
  components are modelled from the specification, as marked on each definition.
-/

namespace MetaGoogler

/-! ## Library slice (`librarySlice.ts`) -/

/-- `Song` from `src/types/index.ts`: `artist` is required, `album` and
`genre` are optional (`album?: string`, `genre?: string`).  Only the fields
the library slice reads are embedded. -/
structure Song where
  id : String
  title : String
  artist : String
  album : Option String
  genre : Option String
  deriving Repr, DecidableEq

/-- `LibraryState` from `src/types/index.ts` as used by `librarySlice.ts`. -/
structure LibraryState where
  allSongs : List Song
  artists : List String
  albums : List String
  genres : List String
  loading : Bool
  error : Option String
  deriving Repr, DecidableEq

/-- Inserting one element into a JavaScript `Set`, viewed as its iteration
(insertion-order) sequence: a repeated element is ignored. -/
def setInsert (l : List String) (x : String) : List String :=
  if x ∈ l then l else l ++ [x]

/-- `Array.from(new Set(xs))`: the insertion-order, duplicate-free view of
`xs`, built by inserting the elements left to right. -/
def jsSetDedup (xs : List String) : List String :=
  xs.foldl setInsert []

/-- JavaScript `.filter(Boolean)` over `(string | undefined)[]`: keeps the
values that are truthy, i.e. drops `undefined` and the empty string. -/
def truthyString : Option String → Option String
  | none => none
  | some s => if s = "" then none else some s

/-- The `setSongs` reducer of `librarySlice.ts`: stores the payload and
recomputes `artists`, `albums` and `genres` with
`Array.from(new Set(payload.map(...)))`, the latter two after
`.filter(Boolean)`. -/
def setSongs (state : LibraryState) (payload : List Song) : LibraryState :=
  { state with
    allSongs := payload
    artists := jsSetDedup (payload.map Song.artist)
    albums := jsSetDedup ((payload.map Song.album).filterMap truthyString)
    genres := jsSetDedup ((payload.map Song.genre).filterMap truthyString) }

/-- First-occurrence de-duplication, written as the specification describes
it: walk the list keeping each element not seen before.  `seen` accumulates
the elements already kept. -/
def dedupFrom (seen : List String) : List String → List String
  | [] => []
  | x :: xs => if x ∈ seen then dedupFrom seen xs else x :: dedupFrom (x :: seen) xs

/-- The duplicate-free list of `xs` in first-occurrence order. -/
def firstOccurDedup (xs : List String) : List String :=
  dedupFrom [] xs

/-! ## AudD service (`auddService.ts`) -/

/-- `AuddRecognitionResult` from `auddService.ts`: a `status` string and an
optional `result` payload (embedded abstractly as its `title`/`artist`
projection; the remaining fields play no role in the claims). -/
structure AuddRecognitionResult where
  status : String
  result : Option (String × String)
  deriving Repr, DecidableEq

/-- A recognition error (promise rejection of `recognizeSong`). -/
inductive AuddError where
  | apiKeyMissing : AuddError
  | apiError (status : String) : AuddError
  | network : AuddError
  deriving Repr, DecidableEq

/-- The settled state of one promise, as produced by `Promise.allSettled`. -/
inductive Settled (ε α : Type) where
  | fulfilled (value : α) : Settled ε α
  | rejected (reason : ε) : Settled ε α
  deriving Repr, DecidableEq

/-- `Promise.allSettled` over a list of already-started computations: every
entry settles, so the combined promise always fulfills with the list of
settled states, in input order. -/
def allSettled {ε α : Type} (ps : List (Except ε α)) : List (Settled ε α) :=
  ps.map fun p => match p with
    | .ok v => .fulfilled v
    | .error e => .rejected e

/-- `AuddService.recognizeMultipleSongs`: runs `recognizeSong` on every path,
waits for all of them with `Promise.allSettled`, and maps each settled state
to the fulfilled value, or to `{status: 'error'}` when the recognition
rejected.  `recognize` stands for `this.recognizeSong`, whose outcome per
path is a fulfilled result or a rejection. -/
def recognizeMultipleSongs (recognize : String → Except AuddError AuddRecognitionResult)
    (audioPaths : List String) : List AuddRecognitionResult :=
  (allSettled (audioPaths.map recognize)).map fun r => match r with
    | .fulfilled v => v
    | .rejected _ => { status := "error", result := none }

/-! ## Resolution engine (modelled from the specification)

The Python implementation (`cover_art_fetcher.py`, `song_metadata_fixer_v2.py`)
is absent from the repository snapshot; these definitions are modelled from
spec.md §3–§4 and the algorithm description in the cover-art guide. -/

/-- Decidable equality for `Except` results, used to evaluate the model on
concrete inputs. -/
instance {ε α : Type} [DecidableEq ε] [DecidableEq α] : DecidableEq (Except ε α) := fun x y =>
  match x, y with
  | .ok a, .ok b =>
    if h : a = b then .isTrue (by rw [h]) else .isFalse (fun hc => h (Except.ok.inj hc))
  | .ok _, .error _ => .isFalse (fun hc => Except.noConfusion hc)
  | .error _, .ok _ => .isFalse (fun hc => Except.noConfusion hc)
  | .error e, .error f =>
    if h : e = f then .isTrue (by rw [h]) else .isFalse (fun hc => h (Except.error.inj hc))

/-- `Query` from the data model: free-text artist and title. -/
structure Query where
  artist : String
  title : String
  deriving Repr, DecidableEq

/-- `RawCandidate` from the data model: source id, raw image bytes and the
reported dimensions/size. -/
structure RawCandidate where
  sourceId : String
  imageBytes : List Nat
  width : Nat
  height : Nat
  byteSize : Nat
  deriving Repr, DecidableEq

/-- An RGB pixel; channel values are bytes (0–255). -/
structure Pixel where
  r : Nat
  g : Nat
  b : Nat
  deriving Repr, DecidableEq

/-- Modelled from the spec: the external image decoder (the real engine uses
an image library; the repository snapshot has no implementation).  The bytes
are read as consecutive RGB triples; an empty buffer or a trailing partial
triple is a decode failure (`none`), modelling corrupt/unsupported images. -/
def decodeImage : List Nat → Option (List Pixel)
  | [] => none
  | [_] => none
  | [_, _] => none
  | r :: g :: b :: rest =>
    if rest.isEmpty then some [⟨r % 256, g % 256, b % 256⟩]
    else (decodeImage rest).map (⟨r % 256, g % 256, b % 256⟩ :: ·)

/-- Modelled from the spec: downsampling to the fixed 8×8 grid keeps a fixed
number (64) of pixels. -/
def downsample (ps : List Pixel) : List Pixel :=
  ps.take 64

/-- Which of the 8 quantized buckets a channel value falls in. -/
def bucketOf (v : Nat) : Nat :=
  v % 256 / 32

/-- Modelled from the spec: the 24-bucket RGB histogram (8 quantized buckets
per channel × 3 channels) of a pixel list — positions 0–7 count red buckets,
8–15 green, 16–23 blue. -/
def histogram (ps : List Pixel) : List Nat :=
  ((List.range 8).map fun i => (ps.filter fun p => bucketOf p.r = i).length)
    ++ ((List.range 8).map fun i => (ps.filter fun p => bucketOf p.g = i).length)
    ++ ((List.range 8).map fun i => (ps.filter fun p => bucketOf p.b = i).length)

/-- The `w` low-order bits of `n`, least significant first. -/
def natBits : Nat → Nat → List Bool
  | 0, _ => []
  | w + 1, n => (n % 2 = 1) :: natBits w (n / 2)

/-- A fingerprint is the fixed-width bit pattern hashed from the histogram. -/
abbrev Fingerprint := List Bool

/-- Modelled from the spec: the fixed-width encoding of the histogram — each
of the 24 bucket counts contributes 7 bits, giving a 168-bit pattern. -/
def histogramHash (h : List Nat) : Fingerprint :=
  (h.map (natBits 7)).flatten

/-- `fingerprint(imageBytes)`: decode, downsample to the fixed grid, build the
histogram and hash it; `none` when the image cannot be decoded. -/
def fingerprint (imageBytes : List Nat) : Option Fingerprint :=
  (decodeImage imageBytes).map fun ps => histogramHash (histogram (downsample ps))

/-- The number of differing bits between two bit patterns; a missing position
(patterns of unequal width) counts as differing. -/
def hammingDist : List Bool → List Bool → Nat
  | [], bs => bs.length
  | _ :: as, [] => 1 + hammingDist as []
  | a :: as, b :: bs => (if a = b then 0 else 1) + hammingDist as bs

/-- `similarity(a, b) = 1.0 - differing_bits / total_bits`, a rational in
place of the implementation's float. -/
def similarity (a b : Fingerprint) : ℚ :=
  mkRat (((max a.length b.length : Nat) : Int) - ((hammingDist a b : Nat) : Int))
    (max a.length b.length)

/-- The engine's default similarity threshold (0.85). -/
def similarityThreshold : ℚ := mkRat 85 100

/-! ### Consensus clustering -/

/-- One clusterable candidate: its retrieval-order index, the candidate and
its computed fingerprint. -/
structure Viable where
  idx : Nat
  cand : RawCandidate
  fp : Fingerprint
  deriving Repr, DecidableEq

/-- The candidates whose fingerprint computes, paired with their retrieval
index; the rest are dropped before clustering (spec §4.3). -/
def viables (cs : List RawCandidate) : List Viable :=
  cs.enum.filterMap fun p => (fingerprint p.2.imageBytes).map fun f => ⟨p.1, p.2, f⟩

/-- Two clusterable candidates are linked when their similarity reaches the
threshold. -/
def simB (th : ℚ) (u v : Viable) : Bool :=
  decide (th ≤ similarity u.fp v.fp)

/-- Adding one candidate to a set of components: every component containing a
candidate linked to `v` merges with `v` into one component (single-link
connectivity); the others are kept. -/
def addOne (th : ℚ) (comps : List (List Viable)) (v : Viable) : List (List Viable) :=
  let linked := comps.filter fun c => c.any fun u => simB th u v
  let rest := comps.filter fun c => !(c.any fun u => simB th u v)
  (v :: linked.flatten) :: rest

/-- The connected components of the similarity graph over the clusterable
candidates, built incrementally (a union-find-style single-link
construction). -/
def components (th : ℚ) (vs : List Viable) : List (List Viable) :=
  vs.foldl (addOne th) []

/-- Pixel area (`width * height`) of a clusterable candidate. -/
def area (v : Viable) : Nat :=
  v.cand.width * v.cand.height

/-- The largest member pixel area of a component. -/
def bestArea (c : List Viable) : Nat :=
  (c.map area).foldl max 0

/-- The earliest retrieval index among a component's members. -/
def minIdx : List Viable → Nat
  | [] => 0
  | v :: vs => vs.foldl (fun m u => Nat.min m u.idx) v.idx

/-- The selection order on clusters: `better a b` when `a` beats `b` — more
members; on a tie, larger best-member pixel area; on a further tie, earlier
first retrieval index. -/
def better (a b : List Viable) : Prop :=
  b.length < a.length
    ∨ (a.length = b.length
        ∧ (bestArea b < bestArea a
            ∨ (bestArea a = bestArea b ∧ minIdx a < minIdx b)))

instance : DecidableRel better := fun a b => by
  unfold better; infer_instance

/-- Fold-based maximum selection: keep the current best, replacing it whenever
a later element beats it under `r`. -/
def pickFold {α : Type} (r : α → α → Prop) [DecidableRel r] (c : α) (cs : List α) : α :=
  cs.foldl (fun best d => if r d best then d else best) c

/-- The winning cluster: the best component under the selection order, `none`
when there are no components. -/
def selectBest (th : ℚ) (vs : List Viable) : Option (List Viable) :=
  match components th vs with
  | [] => none
  | c :: cs => some (pickFold better c cs)

/-- `areaLt u v` when `v` has strictly larger pixel area than `u`. -/
def areaLt (u v : Viable) : Prop :=
  area u < area v

instance : DecidableRel areaLt := fun u v => by
  unfold areaLt; infer_instance

/-- `areaGt u v` when `u` has strictly larger pixel area than `v` — the
replacement order for picking the largest-area member. -/
def areaGt (u v : Viable) : Prop :=
  areaLt v u

instance : DecidableRel areaGt := fun u v => by
  unfold areaGt areaLt; infer_instance

/-- The representative of a component: its member with the largest pixel
area. -/
def pickLargest : List Viable → Option Viable
  | [] => none
  | v :: vs => some (pickFold areaGt v vs)

/-- `cluster(candidates, threshold)`: drop undecodable candidates, group the
rest into similarity components, select the winning component and return its
largest-area member (spec §4.3). -/
def cluster (th : ℚ) (cs : List RawCandidate) : Option RawCandidate :=
  match selectBest th (viables cs) with
  | none => none
  | some comp => (pickLargest comp).map Viable.cand

/-! ### Artwork normalization -/

/-- The normalizer's constraints (spec §4.4): dimension bounds, aspect-ratio
bound and byte budget. -/
structure Constraints where
  minDim : Nat
  maxDim : Nat
  maxAspect : ℚ
  maxBytes : Nat
  deriving Repr, DecidableEq

/-- The default constraints: 100px / 4000px dimensions, aspect ratio up to
1.5, byte budget 500 KB. -/
def defaultConstraints : Constraints :=
  { minDim := 100, maxDim := 4000, maxAspect := mkRat 3 2, maxBytes := 500000 }

/-- The normalizer's error taxonomy (spec §4.4/§7). -/
inductive ValidationError where
  | dimensionError : ValidationError
  | aspectError : ValidationError
  | compressionError : ValidationError
  deriving Repr, DecidableEq

/-- `NormalizedArtwork` from the data model: final bytes, declared MIME type
and final dimensions. -/
structure NormalizedArtwork where
  imageBytes : List Nat
  mimeType : String
  width : Nat
  height : Nat
  deriving Repr, DecidableEq

/-- The aspect ratio `max(w,h) / min(w,h)` as a rational. -/
def aspectOf (w h : Nat) : ℚ :=
  mkRat (max w h) (min w h)

/-- The two-byte JPEG magic prefix. -/
def jpegMagic : List Nat := [255, 216]

/-- The eight-byte PNG magic prefix. -/
def pngMagic : List Nat := [137, 80, 78, 71, 13, 10, 26, 10]

/-- The encoding a byte buffer actually uses, read off its magic prefix. -/
def detectMime (bytes : List Nat) : String :=
  if bytes.take 2 = jpegMagic then "image/jpeg"
  else if bytes.take 8 = pngMagic then "image/png"
  else "application/octet-stream"

/-- Modelled from the spec: the external JPEG encoder (absent from the
snapshot).  Re-encoding a `w×h` image at quality `q` yields a JPEG buffer
whose size shrinks with the quality and the pixel count. -/
def encodeJpeg (w h q : Nat) : List Nat :=
  jpegMagic ++ List.replicate (w * h * q / 100) 0

/-- The fixed decreasing quality sequence (95 down to 10). -/
def qualitySteps : List Nat := [95, 85, 75, 65, 55, 45, 35, 25, 15, 10]

/-- Try re-encoding at each quality in turn; the first encoding that fits the
byte budget wins, `none` when the quality floor is exhausted. -/
def tryQualities (maxBytes w h : Nat) : List Nat → Option (List Nat)
  | [] => none
  | q :: qs =>
    let bytes := encodeJpeg w h q
    if bytes.length ≤ maxBytes then some bytes else tryQualities maxBytes w h qs

/-- The fixed sequence of downscale divisors: full resolution first, then
progressively halved (aspect ratio preserved). -/
def scaleSteps : List Nat := [1, 2, 4, 8]

/-- Walk the downscale sequence; at each scale whose dimensions still meet the
resolution floor, walk the quality sequence; `none` once the floor is
reached. -/
def compressAtScales (k : Constraints) (w h : Nat) : List Nat → Option (List Nat × Nat × Nat)
  | [] => none
  | d :: ds =>
    let w2 := w / d
    let h2 := h / d
    if w2 < k.minDim ∨ h2 < k.minDim then none
    else
      match tryQualities k.maxBytes w2 h2 qualitySteps with
      | some bytes => some (bytes, w2, h2)
      | none => compressAtScales k w h ds

/-- `normalize(candidate, constraints)` (spec §4.4): reject out-of-bounds
dimensions, then excessive aspect ratio; pass through an image already within
the byte budget; otherwise re-encode through the fixed quality/scale
sequences, declaring the JPEG MIME type, and report `compressionError` when
the floor is reached. -/
def normalize (k : Constraints) (c : RawCandidate) : Except ValidationError NormalizedArtwork :=
  if c.width < k.minDim ∨ k.maxDim < c.width ∨ c.height < k.minDim ∨ k.maxDim < c.height then
    .error .dimensionError
  else if k.maxAspect < aspectOf c.width c.height then
    .error .aspectError
  else if c.imageBytes.length ≤ k.maxBytes then
    .ok ⟨c.imageBytes, detectMime c.imageBytes, c.width, c.height⟩
  else
    match compressAtScales k c.width c.height scaleSteps with
    | some (bytes, w2, h2) => .ok ⟨bytes, "image/jpeg", w2, h2⟩
    | none => .error .compressionError

/-! ### Candidate retrieval and orchestration -/

/-- A source-adapter failure (timeout, network error, malformed payload). -/
inductive AdapterFailure where
  | timeout : AdapterFailure
  | networkError : AdapterFailure
  | malformedImage : AdapterFailure
  deriving Repr, DecidableEq

/-- A `SourceAdapter`: `fetch(query) -> [RawCandidate] | throws`. -/
def SourceAdapter : Type :=
  Query → Except AdapterFailure (List RawCandidate)

/-- The candidates one adapter contributes: its result on success, nothing on
any failure (the soft-failure policy of spec §4.1). -/
def fetchOutcome (s : SourceAdapter) (q : Query) : List RawCandidate :=
  match s q with
  | .ok cs => cs
  | .error _ => []

/-- `retrieve(query, sources, maxCandidates)` (spec §4.1): query every
adapter in turn, swallowing per-adapter failures; stop issuing requests once
the soft candidate cap is reached. -/
def retrieve (q : Query) (sources : List SourceAdapter) (maxCandidates : Nat) :
    List RawCandidate :=
  sources.foldl
    (fun acc s => if maxCandidates ≤ acc.length then acc else acc ++ fetchOutcome s q) []

/-- The whole-pipeline outcome (spec §4.5): success, the distinct `NotFound`
absence result, or a validation/compression failure. -/
inductive Outcome where
  | success (art : NormalizedArtwork) : Outcome
  | notFound : Outcome
  | failed (e : ValidationError) : Outcome
  deriving Repr, DecidableEq

/-- `resolve(query)` (spec §4.5): retrieve, cluster, normalize; an empty
retrieval or an empty clustering is `NotFound`, a normalizer error is a
distinct failure. -/
def resolve (sources : List SourceAdapter) (q : Query) (k : Constraints) (th : ℚ)
    (maxCandidates : Nat) : Outcome :=
  match cluster th (retrieve q sources maxCandidates) with
  | none => .notFound
  | some w =>
    match normalize k w with
    | .ok art => .success art
    | .error e => .failed e

/-! ### Concrete test data

Concrete images, candidates and adapters used to instantiate the theorems:
images are built from solid-color runs, so their histograms (and hence the
pairwise similarities) are controlled exactly. -/

/-- An image as a sequence of solid-color runs: each run contributes `count`
pixels whose three channels all sit in quantized bucket `t` (value `32*t`). -/
def mkImg (runs : List (Nat × Nat)) : List Nat :=
  (runs.map fun r => (List.replicate r.2 [32 * r.1, 32 * r.1, 32 * r.1]).flatten).flatten

/-- A 63-pixel image spread over buckets `t1`, `t2`, `t3` (21 pixels each).
Two such images sharing at most one bucket are dissimilar (similarity at most
0.786 < 0.85); identical bucket triples give similarity 1. -/
def prof (t1 t2 t3 : Nat) : List Nat :=
  mkImg [(t1, 21), (t2, 21), (t3, 21)]

/-- The artwork shared by the four-member consensus cluster. -/
def clusterImg : List Nat := prof 0 1 2

/-- A candidate whose reported byte size is its buffer length. -/
def mkC (s : String) (img : List Nat) (w h : Nat) : RawCandidate :=
  ⟨s, img, w, h, img.length⟩

/-- The majority-vote scenario: four mutually similar candidates (indices 1,
3, 5, 7 — all `clusterImg`) and six pairwise dissimilar singletons. -/
def scenario : List RawCandidate :=
  [ mkC "s0" (prof 3 4 5) 500 500
  , mkC "s1" clusterImg 1000 1000
  , mkC "s2" (prof 0 3 6) 600 600
  , mkC "s3" clusterImg 1118 1120
  , mkC "s4" (prof 1 4 6) 700 700
  , mkC "s5" clusterImg 900 900
  , mkC "s6" (prof 2 5 6) 800 800
  , mkC "s7" clusterImg 1000 999
  , mkC "s8" (prof 0 4 7) 4000 4000
  , mkC "s9" (prof 1 5 7) 300 300 ]

/-- The expected winner of `scenario`: the largest-area member (1118×1120) of
the four-member cluster. -/
def winnerCand : RawCandidate := mkC "s3" clusterImg 1118 1120

/-- The fingerprint of an image, for naming concrete fingerprints. -/
def fpOf (bs : List Nat) : Fingerprint :=
  (fingerprint bs).getD []

/-- A valid 150×150 candidate within every default constraint. -/
def c150 : RawCandidate := mkC "mb" clusterImg 150 150

/-- The normalized artwork `c150` yields (no re-encoding needed). -/
def art150 : NormalizedArtwork := ⟨clusterImg, detectMime clusterImg, 150, 150⟩

/-- A 50×50 candidate (below the default 100px minimum). -/
def cand50 : RawCandidate := mkC "mb" clusterImg 50 50

/-- A 100×100 candidate (exactly on the default boundary). -/
def cand100 : RawCandidate := mkC "mb" clusterImg 100 100

/-- A sample query. -/
def q0 : Query := ⟨"The Beatles", "Let It Be"⟩

/-- An adapter that always times out. -/
def adapterTimeoutF : SourceAdapter := fun _ => .error .timeout

/-- An adapter that always hits a network error. -/
def adapterNetF : SourceAdapter := fun _ => .error .networkError

/-- An adapter that succeeds with zero candidates. -/
def adapterEmpty : SourceAdapter := fun _ => .ok []

/-- An adapter that returns the single valid candidate `c150`. -/
def adapterC150 : SourceAdapter := fun _ => .ok [c150]

/-- A concrete recognizer: succeeds on `good.mp3`, rejects on anything
else. -/
def recW : String → Except AuddError AuddRecognitionResult := fun p =>
  if p = "good.mp3" then .ok ⟨"success", some ("Let It Be", "The Beatles")⟩
  else .error .network

/-- The paths fed to the batch-recognition witness. -/
def pathsW : List String := ["good.mp3", "bad.mp3"]

/-! ## Generic selection-fold lemmas -/

theorem pickFold_cons {α : Type} (r : α → α → Prop) [DecidableRel r] (c d : α) (ds : List α) :
    pickFold r c (d :: ds) = pickFold r (if r d c then d else c) ds := rfl

theorem pickFold_mem {α : Type} (r : α → α → Prop) [DecidableRel r] (c : α) (cs : List α) :
    pickFold r c cs = c ∨ pickFold r c cs ∈ cs := by
  induction cs generalizing c with
  | nil => exact Or.inl rfl
  | cons d ds ih =>
    rw [pickFold_cons]
    rcases ih (if r d c then d else c) with h | h
    · rw [h]
      split_ifs
      · exact Or.inr (List.mem_cons_self _ _)
      · exact Or.inl rfl
    · exact Or.inr (List.mem_cons_of_mem _ h)

theorem pickFold_preserves {α : Type} (r : α → α → Prop) [DecidableRel r]
    (htr : ∀ a b x, ¬ r x b → r a b → ¬ r x a) :
    ∀ (cs : List α) (c x : α), ¬ r x c → ¬ r x (pickFold r c cs) := by
  intro cs
  induction cs with
  | nil => intro c x hx; exact hx
  | cons d ds ih =>
    intro c x hx
    rw [pickFold_cons]
    split_ifs with h
    · exact ih d x (htr d c x hx h)
    · exact ih c x hx

theorem pickFold_not_beaten {α : Type} (r : α → α → Prop) [DecidableRel r]
    (hirr : ∀ a, ¬ r a a)
    (hasym : ∀ a b, r a b → ¬ r b a)
    (htr : ∀ a b x, ¬ r x b → r a b → ¬ r x a) :
    ∀ (cs : List α) (c x : α), x = c ∨ x ∈ cs → ¬ r x (pickFold r c cs) := by
  intro cs
  induction cs with
  | nil =>
    intro c x hx
    rcases hx with rfl | hx
    · exact hirr x
    · exact absurd hx (List.not_mem_nil x)
  | cons d ds ih =>
    intro c x hx
    rw [pickFold_cons]
    rcases hx with rfl | hx
    · split_ifs with h
      · exact pickFold_preserves r htr ds d x (hasym d x h)
      · exact ih x x (Or.inl rfl)
    · rcases List.mem_cons.mp hx with rfl | hx
      · split_ifs with h
        · exact ih x x (Or.inl rfl)
        · exact pickFold_preserves r htr ds c x h
      · split_ifs with h
        · exact ih d x (Or.inr hx)
        · exact ih c x (Or.inr hx)

/-! ## Library-slice lemmas -/

theorem dedupFrom_mem (xs : List String) :
    ∀ (seen : List String) (y : String),
      y ∈ dedupFrom seen xs ↔ y ∈ xs ∧ y ∉ seen := by
  induction xs with
  | nil => intro seen y; simp [dedupFrom]
  | cons x xs ih =>
    intro seen y
    rw [dedupFrom]
    split_ifs with hx
    · rw [ih]
      simp only [List.mem_cons]
      constructor
      · rintro ⟨hy, hys⟩; exact ⟨Or.inr hy, hys⟩
      · rintro ⟨hy | hy, hys⟩
        · exact absurd (hy ▸ hx) hys
        · exact ⟨hy, hys⟩
    · simp only [List.mem_cons, ih, not_or]
      constructor
      · rintro (rfl | ⟨hy, _, hys⟩)
        · exact ⟨Or.inl rfl, hx⟩
        · exact ⟨Or.inr hy, hys⟩
      · rintro ⟨rfl | hy, hys⟩
        · exact Or.inl rfl
        · by_cases hxy : y = x
          · exact Or.inl hxy
          · exact Or.inr ⟨hy, hxy, hys⟩

theorem dedupFrom_nodup (xs : List String) :
    ∀ seen : List String, (dedupFrom seen xs).Nodup := by
  induction xs with
  | nil => intro seen; simp [dedupFrom]
  | cons x xs ih =>
    intro seen
    rw [dedupFrom]
    split_ifs with hx
    · exact ih seen
    · refine List.Nodup.cons (fun hc => ?_) (ih (x :: seen))
      exact ((dedupFrom_mem xs (x :: seen) x).mp hc).2 (List.mem_cons_self _ _)

theorem foldl_setInsert_eq (xs : List String) :
    ∀ acc seen : List String, (∀ y, y ∈ acc ↔ y ∈ seen) →
      xs.foldl setInsert acc = acc ++ dedupFrom seen xs := by
  induction xs with
  | nil => intro acc seen _; simp [dedupFrom]
  | cons x xs ih =>
    intro acc seen hiff
    rw [List.foldl_cons, dedupFrom]
    by_cases hx : x ∈ seen
    · rw [if_pos hx]
      have hacc : setInsert acc x = acc := by
        unfold setInsert; rw [if_pos ((hiff x).mpr hx)]
      rw [hacc]
      exact ih acc seen hiff
    · rw [if_neg hx]
      have hax : x ∉ acc := fun hc => hx ((hiff x).mp hc)
      have hacc : setInsert acc x = acc ++ [x] := by
        unfold setInsert; rw [if_neg hax]
      rw [hacc, ih (acc ++ [x]) (x :: seen) ?_]
      · simp
      · intro y
        simp only [List.mem_append, List.mem_cons, List.mem_singleton, hiff y]
        tauto

theorem jsSetDedup_eq_firstOccur (xs : List String) :
    jsSetDedup xs = firstOccurDedup xs := by
  unfold jsSetDedup firstOccurDedup
  simpa using foldl_setInsert_eq xs [] [] (by simp)

theorem jsSetDedup_nodup (xs : List String) : (jsSetDedup xs).Nodup := by
  rw [jsSetDedup_eq_firstOccur]
  exact dedupFrom_nodup xs []

theorem jsSetDedup_mem (xs : List String) (x : String) :
    x ∈ jsSetDedup xs ↔ x ∈ xs := by
  rw [jsSetDedup_eq_firstOccur]
  unfold firstOccurDedup
  rw [dedupFrom_mem]
  simp

theorem mem_filterMap_truthy (l : List (Option String)) (x : String) :
    x ∈ l.filterMap truthyString ↔ some x ∈ l ∧ x ≠ "" := by
  rw [List.mem_filterMap]
  constructor
  · rintro ⟨a, ha, hax⟩
    cases a with
    | none => cases hax
    | some s =>
      simp only [truthyString] at hax
      by_cases hs : s = ""
      · rw [if_pos hs] at hax; cases hax
      · rw [if_neg hs] at hax
        injection hax with hsx
        subst hsx
        exact ⟨ha, hs⟩
  · rintro ⟨hmem, hne⟩
    refine ⟨some x, hmem, ?_⟩
    simp only [truthyString]
    rw [if_neg hne]

/-- C10: after any `setSongs(songs)` action, the derived lists stay
consistent with `allSongs`: `artists` is exactly the duplicate-free list of
the songs' artist fields in first-occurrence order, and `albums`/`genres`
are exactly the duplicate-free first-occurrence lists of the defined
(non-falsy) album/genre fields — so no duplicates and no undefined/empty
entries appear in them. -/
theorem setSongs_derived_consistent (st : LibraryState) (songs : List Song) :
    (setSongs st songs).allSongs = songs
    ∧ (setSongs st songs).artists = firstOccurDedup (songs.map Song.artist)
    ∧ (setSongs st songs).albums
        = firstOccurDedup ((songs.map Song.album).filterMap truthyString)
    ∧ (setSongs st songs).genres
        = firstOccurDedup ((songs.map Song.genre).filterMap truthyString)
    ∧ (setSongs st songs).artists.Nodup
    ∧ (setSongs st songs).albums.Nodup
    ∧ (setSongs st songs).genres.Nodup
    ∧ (∀ x, x ∈ (setSongs st songs).artists ↔ x ∈ songs.map Song.artist)
    ∧ (∀ x, x ∈ (setSongs st songs).albums
          ↔ some x ∈ songs.map Song.album ∧ x ≠ "")
    ∧ (∀ x, x ∈ (setSongs st songs).genres
          ↔ some x ∈ songs.map Song.genre ∧ x ≠ "") := by
  refine ⟨rfl, jsSetDedup_eq_firstOccur _, jsSetDedup_eq_firstOccur _,
    jsSetDedup_eq_firstOccur _, jsSetDedup_nodup _, jsSetDedup_nodup _,
    jsSetDedup_nodup _, fun x => jsSetDedup_mem _ x, fun x => ?_, fun x => ?_⟩
  · rw [show (setSongs st songs).albums
        = jsSetDedup ((songs.map Song.album).filterMap truthyString) from rfl,
      jsSetDedup_mem, mem_filterMap_truthy]
  · rw [show (setSongs st songs).genres
        = jsSetDedup ((songs.map Song.genre).filterMap truthyString) from rfl,
      jsSetDedup_mem, mem_filterMap_truthy]

/-! ## AudD-service theorems -/

theorem recognizeMultipleSongs_eq_map
    (recognize : String → Except AuddError AuddRecognitionResult)
    (audioPaths : List String) :
    recognizeMultipleSongs recognize audioPaths = audioPaths.map fun p =>
      match recognize p with
      | .ok r => r
      | .error _ => { status := "error", result := none } := by
  unfold recognizeMultipleSongs allSettled
  rw [List.map_map, List.map_map]
  congr 1
  funext p
  simp only [Function.comp]
  cases recognize p <;> rfl

/-- C9: `recognizeMultipleSongs` resolves for every path array — an
individual recognition failure never rejects the batch — with an array of
exactly the input's length whose `i`-th entry is the successful result for
`paths[i]` when that recognition succeeded and `{status: 'error'}` when it
failed. -/
theorem recognizeMultipleSongs_settles
    (recognize : String → Except AuddError AuddRecognitionResult)
    (audioPaths : List String) :
    (recognizeMultipleSongs recognize audioPaths).length = audioPaths.length
    ∧ ∀ (i : Nat) (h : i < audioPaths.length),
        (recognizeMultipleSongs recognize audioPaths)[i]?
          = some (match recognize (audioPaths.get ⟨i, h⟩) with
                  | .ok r => r
                  | .error _ => { status := "error", result := none }) := by
  constructor
  · rw [recognizeMultipleSongs_eq_map, List.length_map]
  · intro i h
    rw [recognizeMultipleSongs_eq_map, List.getElem?_map,
      List.getElem?_eq_getElem h, Option.map_some']
    rfl

/-- Witness for C9 at a concrete recognizer and path list: the second path's
recognition rejects, and position 1 of the batch result is the error
marker while the batch has the input's length. -/
theorem recognizeMultipleSongs_settles_witness :
    (recognizeMultipleSongs recW pathsW).length = pathsW.length
    ∧ (recognizeMultipleSongs recW pathsW)[1]?
        = some { status := "error", result := none } :=
  ⟨(recognizeMultipleSongs_settles recW pathsW).1,
    ((recognizeMultipleSongs_settles recW pathsW).2 1 (by decide)).trans (by decide)⟩

/-! ## Fingerprint and similarity lemmas -/

theorem natBits_length (w : Nat) : ∀ n : Nat, (natBits w n).length = w := by
  induction w with
  | zero => intro n; rfl
  | succ w ih => intro n; simp [natBits, ih]

theorem histogramHash_length (h : List Nat) : (histogramHash h).length = 7 * h.length := by
  induction h with
  | nil => rfl
  | cons x t ih =>
    simp only [histogramHash, List.map_cons, List.flatten_cons, List.length_append,
      natBits_length, List.length_cons]
    simp only [histogramHash] at ih
    rw [ih]
    ring

theorem histogram_length (ps : List Pixel) : (histogram ps).length = 24 := by
  simp [histogram]

theorem fingerprint_length {bs : List Nat} {fp : Fingerprint}
    (h : fingerprint bs = some fp) : fp.length = 168 := by
  unfold fingerprint at h
  rcases Option.map_eq_some'.mp h with ⟨ps, _, hfp⟩
  rw [← hfp, histogramHash_length, histogram_length]

theorem hammingDist_nil_right : ∀ a : List Bool, hammingDist a [] = a.length := by
  intro a
  induction a with
  | nil => rfl
  | cons x t ih =>
    simp only [hammingDist, ih, List.length_cons]
    omega

theorem hammingDist_self : ∀ a : List Bool, hammingDist a a = 0 := by
  intro a
  induction a with
  | nil => rfl
  | cons x t ih => simp [hammingDist, ih]

theorem hammingDist_comm : ∀ a b : List Bool, hammingDist a b = hammingDist b a := by
  intro a
  induction a with
  | nil => intro b; rw [hammingDist, hammingDist_nil_right]
  | cons x t ih =>
    intro b
    cases b with
    | nil =>
      rw [hammingDist_nil_right, hammingDist]
    | cons y s =>
      simp only [hammingDist, ih s]
      congr 1
      by_cases hxy : x = y
      · subst hxy; simp
      · rw [if_neg hxy, if_neg (fun h => hxy h.symm)]

theorem hammingDist_le_max : ∀ a b : List Bool,
    hammingDist a b ≤ max a.length b.length := by
  intro a
  induction a with
  | nil => intro b; rw [hammingDist]; omega
  | cons x t ih =>
    intro b
    cases b with
    | nil =>
      rw [hammingDist_nil_right]
      simp
    | cons y s =>
      have := ih s
      simp only [hammingDist, List.length_cons]
      split_ifs <;> omega

theorem similarity_eq_div (a b : Fingerprint) :
    similarity a b
      = (((max a.length b.length : Nat) : ℚ) - ((hammingDist a b : Nat) : ℚ))
          / ((max a.length b.length : Nat) : ℚ) := by
  unfold similarity
  rw [Rat.mkRat_eq_divInt, Rat.divInt_eq_div]
  push_cast
  ring_nf

theorem similarity_eq_one_sub (a b : Fingerprint)
    (h : max a.length b.length ≠ 0) :
    similarity a b
      = 1 - ((hammingDist a b : Nat) : ℚ) / ((max a.length b.length : Nat) : ℚ) := by
  have h0 : ((max a.length b.length : Nat) : ℚ) ≠ 0 := Nat.cast_ne_zero.mpr h
  rw [similarity_eq_div, one_sub_div h0]

theorem similarity_comm (a b : Fingerprint) : similarity a b = similarity b a := by
  unfold similarity
  rw [hammingDist_comm, Nat.max_comm]

theorem similarity_self (a : Fingerprint) (h : a.length ≠ 0) :
    similarity a a = 1 := by
  rw [similarity_eq_div, hammingDist_self, Nat.max_self]
  have h0 : ((a.length : Nat) : ℚ) ≠ 0 := Nat.cast_ne_zero.mpr h
  simp [h0]

theorem similarity_nonneg (a b : Fingerprint) : 0 ≤ similarity a b := by
  rw [similarity_eq_div]
  apply div_nonneg
  · have := hammingDist_le_max a b
    have hle : ((hammingDist a b : Nat) : ℚ) ≤ ((max a.length b.length : Nat) : ℚ) :=
      Nat.cast_le.mpr this
    linarith
  · positivity

theorem similarity_le_one (a b : Fingerprint) : similarity a b ≤ 1 := by
  rw [similarity_eq_div]
  rcases Nat.eq_zero_or_pos (max a.length b.length) with h0 | hpos
  · have hd : hammingDist a b = 0 := Nat.le_zero.mp (h0 ▸ hammingDist_le_max a b)
    rw [h0, hd]
    norm_num
  · rw [div_le_one (by exact_mod_cast hpos)]
    have : (0 : ℚ) ≤ (hammingDist a b : ℚ) := Nat.cast_nonneg _
    linarith

/-- C5: for all images whose fingerprints compute, similarity is reflexive
(`similarity(fp(x), fp(x)) = 1.0`), symmetric, and always lies in
`[0.0, 1.0]`. -/
theorem similarity_reflexive_symmetric_bounded (x y : List Nat)
    (fx fy : Fingerprint)
    (hx : fingerprint x = some fx) (hy : fingerprint y = some fy) :
    similarity fx fx = 1
    ∧ similarity fx fy = similarity fy fx
    ∧ 0 ≤ similarity fx fy
    ∧ similarity fx fy ≤ 1 := by
  refine ⟨?_, similarity_comm fx fy, similarity_nonneg fx fy, similarity_le_one fx fy⟩
  apply similarity_self
  rw [fingerprint_length hx]
  norm_num

set_option maxRecDepth 1000000 in
/-- Witness for C5 at two concrete decodable images: a solid dark pixel and a
solid brighter pixel. -/
theorem similarity_reflexive_symmetric_bounded_witness :
    similarity (fpOf [0, 0, 0]) (fpOf [0, 0, 0]) = 1
    ∧ similarity (fpOf [0, 0, 0]) (fpOf [64, 64, 64])
        = similarity (fpOf [64, 64, 64]) (fpOf [0, 0, 0])
    ∧ 0 ≤ similarity (fpOf [0, 0, 0]) (fpOf [64, 64, 64])
    ∧ similarity (fpOf [0, 0, 0]) (fpOf [64, 64, 64]) ≤ 1 :=
  similarity_reflexive_symmetric_bounded [0, 0, 0] [64, 64, 64]
    (fpOf [0, 0, 0]) (fpOf [64, 64, 64]) (by decide) (by decide)

/-! ## Clustering and selection lemmas -/

theorem better_irrefl (a : List Viable) : ¬ better a a := by
  unfold better; omega

theorem better_asymm (a b : List Viable) : better a b → ¬ better b a := by
  unfold better; omega

theorem better_respects (a b x : List Viable) :
    ¬ better x b → better a b → ¬ better x a := by
  unfold better; omega

theorem areaGt_irrefl (a : Viable) : ¬ areaGt a a := by
  unfold areaGt areaLt; omega

theorem areaGt_asymm (a b : Viable) : areaGt a b → ¬ areaGt b a := by
  unfold areaGt areaLt; omega

theorem areaGt_respects (a b x : Viable) :
    ¬ areaGt x b → areaGt a b → ¬ areaGt x a := by
  unfold areaGt areaLt; omega

theorem selectBest_mem {th : ℚ} {vs : List Viable} {comp : List Viable}
    (h : selectBest th vs = some comp) : comp ∈ components th vs := by
  unfold selectBest at h
  cases hc : components th vs with
  | nil => rw [hc] at h; cases h
  | cons c cs =>
    rw [hc] at h
    injection h with h
    rcases pickFold_mem better c cs with hm | hm
    · rw [← h, hm]; exact List.mem_cons_self _ _
    · rw [← h]; exact List.mem_cons_of_mem _ hm

theorem selectBest_not_beaten {th : ℚ} {vs : List Viable} {comp : List Viable}
    (h : selectBest th vs = some comp) :
    ∀ c' ∈ components th vs, ¬ better c' comp := by
  intro c' hc'
  unfold selectBest at h
  cases hc : components th vs with
  | nil => rw [hc] at h; cases h
  | cons c cs =>
    rw [hc] at h
    injection h with h
    rw [← h]
    rw [hc] at hc'
    exact pickFold_not_beaten better better_irrefl better_asymm better_respects
      cs c c' (List.mem_cons.mp hc')

theorem pickLargest_mem {l : List Viable} {v : Viable}
    (h : pickLargest l = some v) : v ∈ l := by
  cases l with
  | nil => cases h
  | cons c cs =>
    unfold pickLargest at h
    injection h with h
    rcases pickFold_mem areaGt c cs with hm | hm
    · rw [← h, hm]; exact List.mem_cons_self _ _
    · rw [← h]; exact List.mem_cons_of_mem _ hm

theorem pickLargest_max {l : List Viable} {v : Viable}
    (h : pickLargest l = some v) : ∀ u ∈ l, area u ≤ area v := by
  intro u hu
  cases l with
  | nil => cases h
  | cons c cs =>
    unfold pickLargest at h
    injection h with h
    have := pickFold_not_beaten areaGt areaGt_irrefl areaGt_asymm areaGt_respects
      cs c u (List.mem_cons.mp hu)
    rw [h] at this
    unfold areaGt areaLt at this
    omega

/-- C1: whenever `cluster` returns a winner, the winner belongs to the
connected component with the most member candidates — ties broken first by
the larger best-member pixel area, then by the earliest retrieval index —
and within the winning component it is a member of maximal pixel area
(`width*height`). -/
theorem cluster_majority_selection (th : ℚ) (cs : List RawCandidate)
    (w : RawCandidate) (h : cluster th cs = some w) :
    ∃ comp ∈ components th (viables cs), ∃ v ∈ comp,
      v.cand = w
      ∧ (∀ c' ∈ components th (viables cs), c'.length ≤ comp.length)
      ∧ (∀ c' ∈ components th (viables cs), ¬ better c' comp)
      ∧ (∀ u ∈ comp, area u ≤ area v) := by
  unfold cluster at h
  cases hs : selectBest th (viables cs) with
  | none => rw [hs] at h; cases h
  | some comp =>
    rw [hs] at h
    dsimp only at h
    cases hp : pickLargest comp with
    | none =>
      rw [hp] at h
      simp only [Option.map_none'] at h
      cases h
    | some v =>
      rw [hp] at h
      simp only [Option.map_some', Option.some.injEq] at h
      refine ⟨comp, selectBest_mem hs, v, pickLargest_mem hp, h, ?_,
        selectBest_not_beaten hs, pickLargest_max hp⟩
      intro c' hc'
      have hnb := selectBest_not_beaten hs c' hc'
      unfold better at hnb
      omega

set_option maxRecDepth 1000000 in
/-- Witness for C1: in the concrete ten-candidate scenario — four mutually
similar candidates (retrieval indices 1, 3, 5, 7) and six pairwise
dissimilar singletons — the components are exactly the four-member cluster
plus six singletons, and the winner is its 1118×1120 member. -/
theorem cluster_majority_selection_witness :
    (components similarityThreshold (viables scenario)).map (List.map Viable.idx)
        = [[9], [8], [7, 5, 3, 1], [6], [4], [2], [0]]
    ∧ ∃ comp ∈ components similarityThreshold (viables scenario), ∃ v ∈ comp,
        v.cand = winnerCand
        ∧ (∀ c' ∈ components similarityThreshold (viables scenario),
              c'.length ≤ comp.length)
        ∧ (∀ c' ∈ components similarityThreshold (viables scenario),
              ¬ better c' comp)
        ∧ (∀ u ∈ comp, area u ≤ area v) :=
  ⟨by decide,
    cluster_majority_selection similarityThreshold scenario winnerCand (by decide)⟩

/-- C6: the clustering-and-selection step is a deterministic function of the
candidate list — two runs on the same input (same bytes, same order) yield
the same winner; the model has no randomness or wall-clock input. -/
theorem cluster_deterministic (th : ℚ) (cs cs' : List RawCandidate)
    (h : cs = cs') : cluster th cs = cluster th cs' := by
  rw [h]

/-- Witness for C6 at the concrete scenario list. -/
theorem cluster_deterministic_witness :
    cluster similarityThreshold scenario = cluster similarityThreshold scenario :=
  cluster_deterministic similarityThreshold scenario scenario rfl

/-- C8: given exactly one retrieved candidate whose fingerprint computes and
which satisfies the output constraints, `resolve` returns it as the winner —
a cluster of size 1 is a valid winner, so agreement between sources is not
required for success. -/
theorem resolve_single_candidate (th : ℚ) (c : RawCandidate) (fp : Fingerprint)
    (sources : List SourceAdapter) (q : Query) (k : Constraints) (maxC : Nat)
    (art : NormalizedArtwork)
    (hfp : fingerprint c.imageBytes = some fp)
    (hret : retrieve q sources maxC = [c])
    (hnorm : normalize k c = .ok art) :
    cluster th [c] = some c ∧ resolve sources q k th maxC = .success art := by
  have hv : viables [c] = [⟨0, c, fp⟩] := by
    unfold viables
    simp [List.enum, List.enumFrom, hfp]
  have hcl : cluster th [c] = some c := by
    unfold cluster selectBest
    rw [hv]
    rfl
  refine ⟨hcl, ?_⟩
  unfold resolve
  rw [hret, hcl]
  dsimp only
  rw [hnorm]

set_option maxRecDepth 1000000 in
/-- Witness for C8: a single adapter returning the valid 150×150 candidate;
`resolve` succeeds with it, with no second source agreeing. -/
theorem resolve_single_candidate_witness :
    cluster similarityThreshold [c150] = some c150
    ∧ resolve [adapterC150] q0 defaultConstraints similarityThreshold 12
        = .success art150 :=
  resolve_single_candidate similarityThreshold c150 (fpOf clusterImg) [adapterC150]
    q0 defaultConstraints 12 art150 (by decide) (by decide) (by decide)

/-! ## Normalizer lemmas -/

theorem tryQualities_spec (mb w h : Nat) :
    ∀ (qs : List Nat) (bytes : List Nat), tryQualities mb w h qs = some bytes →
      bytes.length ≤ mb ∧ ∃ q ∈ qs, bytes = encodeJpeg w h q := by
  intro qs
  induction qs with
  | nil => intro bytes hb; cases hb
  | cons q qs ih =>
    intro bytes hb
    rw [tryQualities] at hb
    split_ifs at hb with hq
    · injection hb with hb
      subst hb
      exact ⟨hq, q, List.mem_cons_self _ _, rfl⟩
    · obtain ⟨hle, q', hq', hbq⟩ := ih bytes hb
      exact ⟨hle, q', List.mem_cons_of_mem _ hq', hbq⟩

theorem detectMime_encodeJpeg (w h q : Nat) :
    detectMime (encodeJpeg w h q) = "image/jpeg" := by
  unfold detectMime
  have ht : (encodeJpeg w h q).take 2 = jpegMagic := by
    unfold encodeJpeg
    rw [show (2 : Nat) = jpegMagic.length from rfl, List.take_left]
  simp [ht]

theorem compressAtScales_spec (k : Constraints) (w h : Nat) :
    ∀ (ds : List Nat) (bytes : List Nat) (w2 h2 : Nat),
      compressAtScales k w h ds = some (bytes, w2, h2) →
        bytes.length ≤ k.maxBytes ∧ detectMime bytes = "image/jpeg"
          ∧ k.minDim ≤ w2 ∧ k.minDim ≤ h2 := by
  intro ds
  induction ds with
  | nil => intro bytes w2 h2 hc; cases hc
  | cons d ds ih =>
    intro bytes w2 h2 hc
    rw [compressAtScales] at hc
    split_ifs at hc with hfloor
    push_neg at hfloor
    cases htry : tryQualities k.maxBytes (w / d) (h / d) qualitySteps with
    | some b =>
      rw [htry] at hc
      simp only [Option.some.injEq, Prod.mk.injEq] at hc
      obtain ⟨hb, hw2, hh2⟩ := hc
      obtain ⟨hle, q, _, hbq⟩ := tryQualities_spec k.maxBytes (w / d) (h / d)
        qualitySteps b htry
      subst hb
      refine ⟨hle, ?_, ?_, ?_⟩
      · rw [hbq, detectMime_encodeJpeg]
      · omega
      · omega
    | none =>
      rw [htry] at hc
      exact ih bytes w2 h2 hc

/-- C2: for any candidate whose dimensions and aspect ratio are within the
constraints, `normalize` either succeeds with a byte buffer at or under
`maxBytes` whose declared MIME type matches the final encoding (and whose
dimensions still meet the floor), or returns an explicit `CompressionError`
when the quality/resolution floor is exhausted; the compression loop walks
fixed finite quality/scale sequences, so it terminates on every input. -/
theorem normalize_budget (k : Constraints) (c : RawCandidate)
    (hw1 : k.minDim ≤ c.width) (hw2 : c.width ≤ k.maxDim)
    (hh1 : k.minDim ≤ c.height) (hh2 : c.height ≤ k.maxDim)
    (hasp : aspectOf c.width c.height ≤ k.maxAspect) :
    (∃ art, normalize k c = .ok art
        ∧ art.imageBytes.length ≤ k.maxBytes
        ∧ art.mimeType = detectMime art.imageBytes
        ∧ k.minDim ≤ art.width ∧ k.minDim ≤ art.height)
    ∨ normalize k c = .error .compressionError := by
  unfold normalize
  rw [if_neg (by omega :
    ¬ (c.width < k.minDim ∨ k.maxDim < c.width
        ∨ c.height < k.minDim ∨ k.maxDim < c.height))]
  rw [if_neg (not_lt.mpr hasp)]
  by_cases hsize : c.imageBytes.length ≤ k.maxBytes
  · rw [if_pos hsize]
    exact Or.inl ⟨_, rfl, hsize, rfl, hw1, hh1⟩
  · rw [if_neg hsize]
    cases hcs : compressAtScales k c.width c.height scaleSteps with
    | none => exact Or.inr rfl
    | some t =>
      obtain ⟨bytes, w2, h2⟩ := t
      left
      have hspec := compressAtScales_spec k c.width c.height scaleSteps bytes w2 h2 hcs
      exact ⟨⟨bytes, "image/jpeg", w2, h2⟩, rfl, hspec.1, hspec.2.1.symm,
        hspec.2.2.1, hspec.2.2.2⟩

set_option maxRecDepth 1000000 in
/-- Witness for C2 at the default constraints and the valid 150×150
candidate. -/
theorem normalize_budget_witness :
    (∃ art, normalize defaultConstraints c150 = .ok art
        ∧ art.imageBytes.length ≤ defaultConstraints.maxBytes
        ∧ art.mimeType = detectMime art.imageBytes
        ∧ defaultConstraints.minDim ≤ art.width
        ∧ defaultConstraints.minDim ≤ art.height)
    ∨ normalize defaultConstraints c150 = .error .compressionError :=
  normalize_budget defaultConstraints c150 (by decide) (by decide) (by decide)
    (by decide) (by decide)

set_option maxRecDepth 1000000 in
/-- C7: `normalize` returns a `DimensionError` exactly when the width or the
height falls outside the inclusive interval `[minDim, maxDim]`; with the
defaults (100px/4000px), a 50×50 image is rejected with `DimensionError`
while an image of exactly 100×100 is accepted — the boundary is
inclusive. -/
theorem normalize_dimension_boundary :
    (∀ (k : Constraints) (c : RawCandidate),
        normalize k c = .error .dimensionError
          ↔ (c.width < k.minDim ∨ k.maxDim < c.width
              ∨ c.height < k.minDim ∨ k.maxDim < c.height))
    ∧ normalize defaultConstraints cand50 = .error .dimensionError
    ∧ (∃ art, normalize defaultConstraints cand100 = .ok art) := by
  refine ⟨?_, by decide, ⟨⟨clusterImg, detectMime clusterImg, 100, 100⟩, by decide⟩⟩
  intro k c
  unfold normalize
  by_cases hdim : (c.width < k.minDim ∨ k.maxDim < c.width
      ∨ c.height < k.minDim ∨ k.maxDim < c.height)
  · rw [if_pos hdim]
    simp [hdim]
  · rw [if_neg hdim]
    apply iff_of_false ?_ hdim
    split_ifs with hasp hsize
    · simp
    · simp
    · cases hcs : compressAtScales k c.width c.height scaleSteps with
      | none => simp
      | some t =>
        obtain ⟨bytes, w2, h2⟩ := t
        simp

/-! ## Retrieval and orchestration theorems -/

theorem retrieve_nil_of_empty (q : Query) (maxC : Nat) :
    ∀ sources : List SourceAdapter,
      (∀ s ∈ sources, fetchOutcome s q = []) → retrieve q sources maxC = [] := by
  intro sources
  induction sources with
  | nil => intro _; rfl
  | cons s ss ih =>
    intro h
    unfold retrieve at ih ⊢
    rw [List.foldl_cons]
    have hs := h s (List.mem_cons_self s ss)
    have hstep : (if maxC ≤ ([] : List RawCandidate).length then ([] : List RawCandidate)
        else [] ++ fetchOutcome s q) = [] := by
      split_ifs <;> simp [hs]
    rw [hstep]
    exact ih (fun s' hs' => h s' (List.mem_cons_of_mem _ hs'))

/-- C3: if zero candidates are retrieved across all configured sources,
`retrieve` returns an empty list rather than raising, and `resolve` then
returns the distinct `NotFound` outcome — never an exception and never a
success value. -/
theorem resolve_no_candidates (sources : List SourceAdapter) (q : Query)
    (k : Constraints) (th : ℚ) (maxC : Nat)
    (h : ∀ s ∈ sources, fetchOutcome s q = []) :
    retrieve q sources maxC = [] ∧ resolve sources q k th maxC = .notFound := by
  have hr := retrieve_nil_of_empty q maxC sources h
  refine ⟨hr, ?_⟩
  unfold resolve
  rw [hr]
  rfl

/-- Witness for C3: one timing-out adapter and one adapter succeeding with
zero results. -/
theorem resolve_no_candidates_witness :
    retrieve q0 [adapterTimeoutF, adapterEmpty] 12 = []
    ∧ resolve [adapterTimeoutF, adapterEmpty] q0 defaultConstraints
        similarityThreshold 12 = .notFound :=
  resolve_no_candidates [adapterTimeoutF, adapterEmpty] q0 defaultConstraints
    similarityThreshold 12 (by
      intro s hs
      rcases List.mem_cons.mp hs with rfl | hs
      · rfl
      · rcases List.mem_cons.mp hs with rfl | hs
        · rfl
        · exact absurd hs (List.not_mem_nil _))

theorem retrieve_drop_failing (q : Query) (maxC : Nat) :
    ∀ (pre post : List SourceAdapter) (s : SourceAdapter) (e : AdapterFailure),
      s q = .error e →
        retrieve q (pre ++ s :: post) maxC = retrieve q (pre ++ post) maxC := by
  intro pre post s e hs
  unfold retrieve
  rw [List.foldl_append, List.foldl_append, List.foldl_cons]
  congr 1
  have hout : fetchOutcome s q = [] := by unfold fetchOutcome; rw [hs]
  split_ifs
  · rfl
  · rw [hout, List.append_nil]

/-- C4: the failure of any individual source adapter never propagates from
`retrieve` — a failing adapter anywhere in the configured list leaves the
retrieval result unchanged — and in particular, with 2 of 4 configured
sources throwing or timing out, `resolve` still succeeds using the surviving
sources' candidates. -/
theorem resolve_partial_failure (q : Query) (k : Constraints) (th : ℚ) (maxC : Nat)
    (s1 f1 f2 s4 : SourceAdapter) (e1 e2 : AdapterFailure) (art : NormalizedArtwork)
    (h1 : f1 q = .error e1) (h2 : f2 q = .error e2)
    (hs : resolve [s1, s4] q k th maxC = .success art) :
    (∀ (pre post : List SourceAdapter) (s : SourceAdapter) (e : AdapterFailure),
        s q = .error e →
          retrieve q (pre ++ s :: post) maxC = retrieve q (pre ++ post) maxC)
    ∧ resolve [s1, f1, f2, s4] q k th maxC = .success art := by
  refine ⟨retrieve_drop_failing q maxC, ?_⟩
  have hr1 := retrieve_drop_failing q maxC [s1] [f2, s4] f1 e1 h1
  have hr2 := retrieve_drop_failing q maxC [s1] [s4] f2 e2 h2
  simp only [List.cons_append, List.nil_append] at hr1 hr2
  unfold resolve at hs ⊢
  rw [hr1, hr2]
  exact hs

set_option maxRecDepth 1000000 in
/-- Witness for C4: four configured adapters of which the middle two time out
and hit a network error; dropping the first failing adapter leaves retrieval
unchanged, and `resolve` still succeeds with the surviving candidate. -/
theorem resolve_partial_failure_witness :
    retrieve q0 ([adapterC150] ++ adapterTimeoutF :: [adapterNetF, adapterEmpty]) 12
        = retrieve q0 ([adapterC150] ++ [adapterNetF, adapterEmpty]) 12
    ∧ resolve [adapterC150, adapterTimeoutF, adapterNetF, adapterEmpty] q0
        defaultConstraints similarityThreshold 12 = .success art150 :=
  ⟨(resolve_partial_failure q0 defaultConstraints similarityThreshold 12
      adapterC150 adapterTimeoutF adapterNetF adapterEmpty .timeout .networkError
      art150 rfl rfl (by decide)).1
        [adapterC150] [adapterNetF, adapterEmpty] adapterTimeoutF .timeout rfl,
    (resolve_partial_failure q0 defaultConstraints similarityThreshold 12
      adapterC150 adapterTimeoutF adapterNetF adapterEmpty .timeout .networkError
      art150 rfl rfl (by decide)).2⟩

end MetaGoogler
